import Mathlib

/-!
Verification development for the RAG (retrieval-augmented generation)
subsystem of the lif3-backend: tokenizer-window chunking, semantic search
result processing, context assembly, confidence scoring and content
cleaning, shallowly embedded from `rag.service.ts`, `rag-ai.service`
(RAGAIService) and `document.service.ts`.

External collaborators (the tiktoken tokenizer's `encode`/`decode`, the
embedding pipeline, and the vector store's `query` response) are modelled
as explicit function/value parameters; everything the service itself
computes is translated directly from the TypeScript source.  JavaScript
number arithmetic is modelled over `Rat` (exact), JS strings as Lean
`String`, and the `x || default` idiom on numbers/strings by explicit
falsy-value helpers.
-/

set_option maxRecDepth 100000

namespace LifRag

/-- The character class of JavaScript's `\s` (whitespace) and of
`String.prototype.trim`, restricted to the code points that can actually
occur here; covers ASCII whitespace and the Unicode space separators. -/
def jsIsWs (c : Char) : Bool :=
  c = ' ' || c = '\t' || c = '\n' || c = '\r' ||
  c.toNat = 0x0B || c.toNat = 0x0C ||
  c.toNat = 0xA0 || c.toNat = 0x1680 ||
  (0x2000 ≤ c.toNat && c.toNat ≤ 0x200A) ||
  c.toNat = 0x2028 || c.toNat = 0x2029 || c.toNat = 0x202F ||
  c.toNat = 0x205F || c.toNat = 0x3000 || c.toNat = 0xFEFF

/-- JS `String.prototype.trim` on a character list: drop whitespace from
both ends. -/
def jsTrimL (l : List Char) : List Char :=
  ((l.dropWhile jsIsWs).reverse.dropWhile jsIsWs).reverse

/-- JS `String.prototype.trim`. -/
def jsTrim (s : String) : String :=
  String.mk (jsTrimL s.toList)

/-- JS `String.prototype.toLowerCase` (ASCII-adequate model). -/
def jsToLower (s : String) : String :=
  String.mk (s.toList.map Char.toLower)

/-- Helper for `jsSplitWs`: split a character list at maximal whitespace
runs, keeping the (possibly empty) fields between them, exactly as JS
`str.split(/\s+/)` does.  The accumulator holds the current field in
reverse (`none` while inside a whitespace run, so that consecutive
whitespace characters form a single delimiter). -/
def jsSplitWsAux : List Char → Option (List Char) → List String
  | [], none => [""]
  | [], some cur => [String.mk cur.reverse]
  | c :: rest, none =>
    if jsIsWs c then jsSplitWsAux rest none
    else jsSplitWsAux rest (some [c])
  | c :: rest, some cur =>
    if jsIsWs c then String.mk cur.reverse :: jsSplitWsAux rest none
    else jsSplitWsAux rest (some (c :: cur))

/-- JS `str.split(/\s+/)`. -/
def jsSplitWs (s : String) : List String :=
  jsSplitWsAux s.toList (some [])

/-- JS `a.includes(b)`: `b` occurs as a contiguous substring of `a`. -/
def jsIncludes (a b : String) : Bool :=
  decide (b.toList <:+: a.toList)

/-- JS `Array.prototype.slice(start, stop)` with possibly negative
indices: negative indices count from the end, then the window is clamped
to the array bounds. -/
def jsSlice {α : Type} (l : List α) (start stop : Int) : List α :=
  let len : Int := l.length
  let s : Nat := (if start < 0 then max (len + start) 0 else min start len).toNat
  let e : Nat := (if stop < 0 then max (len + stop) 0 else min stop len).toNat
  (l.take e).drop s

/-- One chunk as produced by `RAGService.createDocumentChunks`.  `content`
is the trimmed decoded window text, `tokenCount` the number of tokens of
the window.  `startTok`/`endTok` record the window bounds `startIdx`
/`endIdx` the loop used for this chunk (ghost fields; the source keeps
them only in the loop variables).  The chunk's random UUID and the
inherited document metadata are opaque and not modelled. -/
structure DocChunk where
  content : String
  chunkIndex : Nat
  totalChunks : Nat
  tokenCount : Nat
  startTok : Int
  endTok : Int
deriving DecidableEq, Repr

/-- The `while (startIdx < tokens.length)` loop of
`RAGService.createDocumentChunks`, with the tokenizer's `decode` as a
parameter and an explicit fuel argument (`none` = the loop has not
finished within `fuel` iterations).  Mirrors the source: window
`[startIdx, min (startIdx+chunkSize) len)`, decode, trim, skip windows
whose trimmed text is shorter than 50 characters advancing to the window
end, otherwise emit a chunk and advance to `endIdx - chunkOverlap`. -/
def chunkLoop (decode : List Nat → String) (chunkSize chunkOverlap : Nat)
    (tokens : List Nat) :
    Nat → Int → Nat → List DocChunk → Option (List DocChunk)
  | 0, _, _, _ => none
  | fuel + 1, startIdx, chunkIndex, acc =>
    if startIdx < (tokens.length : Int) then
      let endIdx : Int := min (startIdx + chunkSize) (tokens.length : Int)
      let chunkTokens := jsSlice tokens startIdx endIdx
      let cleanChunkText := jsTrim (decode chunkTokens)
      if cleanChunkText.length < 50 then
        chunkLoop decode chunkSize chunkOverlap tokens fuel endIdx chunkIndex acc
      else
        chunkLoop decode chunkSize chunkOverlap tokens fuel
          (endIdx - chunkOverlap) (chunkIndex + 1)
          (acc ++ [{ content := cleanChunkText, chunkIndex := chunkIndex,
                     totalChunks := 0, tokenCount := chunkTokens.length,
                     startTok := startIdx, endTok := endIdx }])
    else
      some acc

/-- `RAGService.createDocumentChunks`: run the chunking loop from cursor
0, then backfill every chunk's `totalChunks` with the final count. -/
def createDocumentChunks (decode : List Nat → String)
    (chunkSize chunkOverlap : Nat) (tokens : List Nat) (fuel : Nat) :
    Option (List DocChunk) :=
  (chunkLoop decode chunkSize chunkOverlap tokens fuel 0 0 []).map
    (fun chunks => chunks.map (fun c => { c with totalChunks := chunks.length }))

/-- Chunking loop following the SPEC's words (section 4.1), kept separate
from the source translation `chunkLoop` for comparison: same window,
decode, trim and under-50-characters skip, but on the emit path the spec
says "Advance cursor to `windowEnd - chunkOverlap` (…; if `windowEnd ==
textLength`, loop terminates)", i.e. the loop stops once a window's end
reaches the end of the token sequence. -/
def specChunkLoop (decode : List Nat → String) (chunkSize chunkOverlap : Nat)
    (tokens : List Nat) :
    Nat → Nat → Nat → List DocChunk → Option (List DocChunk)
  | 0, _, _, _ => none
  | fuel + 1, cursor, counter, acc =>
    if cursor < tokens.length then
      let windowEnd : Nat := min (cursor + chunkSize) tokens.length
      let windowTokens := (tokens.take windowEnd).drop cursor
      let trimmed := jsTrim (decode windowTokens)
      if trimmed.length < 50 then
        specChunkLoop decode chunkSize chunkOverlap tokens fuel windowEnd counter acc
      else
        let acc' := acc ++ [{ content := trimmed, chunkIndex := counter,
                              totalChunks := 0, tokenCount := windowTokens.length,
                              startTok := (cursor : Int), endTok := (windowEnd : Int) }]
        if windowEnd = tokens.length then
          some acc'
        else
          specChunkLoop decode chunkSize chunkOverlap tokens fuel
            (windowEnd - chunkOverlap) (counter + 1) acc'
    else
      some acc

/-- Spec-side chunker (section 4.1): loop from cursor 0 then backfill
`totalChunks`. -/
def specCreateChunks (decode : List Nat → String)
    (chunkSize chunkOverlap : Nat) (tokens : List Nat) (fuel : Nat) :
    Option (List DocChunk) :=
  (specChunkLoop decode chunkSize chunkOverlap tokens fuel 0 0 []).map
    (fun chunks => chunks.map (fun c => { c with totalChunks := chunks.length }))

/-- JS `x || d` for an optionally-present number: `undefined` and the
falsy value `0` both select the default. -/
def jsOrQ (x : Option ℚ) (d : ℚ) : ℚ :=
  match x with
  | none => d
  | some v => if v = 0 then d else v

/-- JS `x || d` for an optionally-present integer count. -/
def jsOrNat (x : Option Nat) (d : Nat) : Nat :=
  match x with
  | none => d
  | some v => if v = 0 then d else v

/-- A chunk as carried by search results: its id, text content, and the
`fileName` component of its metadata (the only metadata field the
downstream context assembly reads). -/
structure SChunk where
  id : String
  content : String
  fileName : String
deriving DecidableEq, Repr

/-- `SearchResult` of `rag.interface`: a chunk with its similarity and
blended relevance. -/
structure SearchResult where
  chunk : SChunk
  similarity : ℚ
  relevance : ℚ
deriving DecidableEq, Repr

/-- The vector store's reply to `collection.query` for a fixed query
embedding, limit and filters: parallel lists of ids, document texts,
metadata file names and cosine distances (possibly of differing lengths,
as the source guards each access with optional chaining). -/
structure QueryResponse where
  ids : List String
  docs : List String
  fileNames : List String
  distances : List ℚ
deriving DecidableEq, Repr

/-- `RAGService.calculateRelevance`: blend of vector similarity and
lexical keyword overlap.  A query word matches when some content word
contains it or is contained in it; both texts are lower-cased and split
on whitespace. -/
def calculateRelevance (query content : String) (similarity : ℚ) : ℚ :=
  let queryWords := jsSplitWs (jsToLower query)
  let contentWords := jsSplitWs (jsToLower content)
  let keywordMatches :=
    queryWords.countP (fun word =>
      contentWords.any (fun cWord => jsIncludes cWord word || jsIncludes word cWord))
  let keywordScore : ℚ := (keywordMatches : ℚ) / (queryWords.length : ℚ)
  similarity * 0.8 + keywordScore * 0.2

/-- The result-processing stage of `RAGService.semanticSearch`: for each
returned neighbor `i`, distance defaults to 1 when missing or falsy,
similarity is `1 - distance`, neighbors below the (defaulted) threshold
are discarded, survivors get a relevance score, and the survivors are
stably sorted by descending relevance. -/
def processQueryResults (query : String) (resp : QueryResponse)
    (threshold : Option ℚ) : List SearchResult :=
  let searchResults :=
    (List.range resp.docs.length).filterMap (fun i =>
      let distance := jsOrQ (resp.distances.get? i) 1
      let similarity := 1 - distance
      if jsOrQ threshold 0.7 ≤ similarity then
        some { chunk := { id := resp.ids.getD i "",
                          content := resp.docs.getD i "",
                          fileName := resp.fileNames.getD i "" },
               similarity := similarity,
               relevance := calculateRelevance query (resp.docs.getD i "") similarity }
      else none)
  searchResults.mergeSort (fun a b => decide (b.relevance ≤ a.relevance))

/-- `RAGService.semanticSearch` with the store's query reply as a
parameter: an uninitialized service returns `[]` without querying;
otherwise the reply is filtered, scored and sorted. -/
def semanticSearch (initialized : Bool) (query : String)
    (resp : QueryResponse) (threshold : Option ℚ) : List SearchResult :=
  if initialized then processQueryResults query resp threshold else []

/-- `content.replace(/\r\n/g, '\n')` on a character list: a carriage
return immediately followed by a newline is dropped (the newline is
kept), which is exactly the effect of the replacement since the pattern
is two characters and the replacement retains the second. -/
def replCrlf : List Char → List Char
  | [] => []
  | c :: rest =>
    if c = '\r' ∧ rest.take 1 = ['\n'] then replCrlf rest
    else c :: replCrlf rest

/-- `content.replace(/\n{3,}/g, '\n\n')`: every maximal run of three or
more newlines collapses to two; equivalently, a newline followed by at
least two more newlines is dropped (keeping the last two of each run). -/
def replNl3 : List Char → List Char
  | [] => []
  | c :: rest =>
    if c = '\n' ∧ rest.take 2 = ['\n', '\n'] then replNl3 rest
    else c :: replNl3 rest

/-- `content.replace(/\t/g, ' ')`. -/
def replTab (l : List Char) : List Char :=
  l.map (fun c => if c = '\t' then ' ' else c)

/-- `content.replace(/ {2,}/g, ' ')`: every maximal run of two or more
spaces collapses to one; equivalently, a space followed by another space
is dropped (keeping the last of each run). -/
def replSp2 : List Char → List Char
  | [] => []
  | c :: rest =>
    if c = ' ' ∧ rest.take 1 = [' '] then replSp2 rest
    else c :: replSp2 rest

/-- `content.replace(/[^\x00-\x7F]/g, '')`: drop non-ASCII characters. -/
def stripNonAscii (l : List Char) : List Char :=
  l.filter (fun c => c.toNat ≤ 0x7F)

/-- `RAGService.cleanContent`: normalize line endings, collapse 3+
newlines, tabs to spaces, collapse repeated spaces, trim. -/
def cleanContentRag (s : String) : String :=
  String.mk (jsTrimL (replSp2 (replTab (replNl3 (replCrlf s.toList)))))

/-- `DocumentService.cleanContent`: like `RAGService.cleanContent` but
additionally strips non-ASCII characters before trimming. -/
def cleanContentDoc (s : String) : String :=
  String.mk (jsTrimL (stripNonAscii (replSp2 (replTab (replNl3 (replCrlf s.toList))))))

/-- The per-result source header of `RAGAIService.buildContext`. -/
def formatSource (c : SChunk) : String :=
  "\n\n--- Source: " ++ c.fileName ++ " ---\n" ++ c.content

/-- The `for … break` loop of `RAGAIService.buildContext`, with the
accumulated context string, used sources and running token count as
explicit arguments.  `encode` is the tokenizer. -/
def buildContextGo (encode : String → List Nat) (maxTokens : Nat) :
    List SearchResult → String → List SChunk → Nat → String × List SChunk
  | [], context, sources, _ => (context, sources)
  | result :: rest, context, sources, tokenCount =>
    let chunkText := formatSource result.chunk
    let chunkTokens := (encode chunkText).length
    if maxTokens < tokenCount + chunkTokens then (context, sources)
    else
      buildContextGo encode maxTokens rest (context ++ chunkText)
        (sources ++ [result.chunk]) (tokenCount + chunkTokens)

/-- `RAGAIService.buildContext`: greedily pack formatted results into a
token budget; returns the context string and the chunks used. -/
def buildContext (encode : String → List Nat) (searchResults : List SearchResult)
    (maxTokens : Nat) : String × List SChunk :=
  buildContextGo encode maxTokens searchResults "" [] 0

/-- `RAGAIService.calculateConfidence`: 0 for no results, otherwise a
blend of average similarity of the passed results, a source-count factor
and a response-length factor, capped at 1. -/
def calculateConfidence (searchResults : List SearchResult) (response : String) : ℚ :=
  if searchResults.length = 0 then 0
  else
    let avgSimilarity : ℚ :=
      (searchResults.map (fun r => r.similarity)).sum / (searchResults.length : ℚ)
    let sourcesFactor : ℚ := min ((searchResults.length : ℚ) / 5) 1
    let responseFactor : ℚ := min ((response.length : ℚ) / 1000) 1 * 0.1
    min (avgSimilarity * 0.7 + sourcesFactor * 0.2 + responseFactor) 1

/-- `RAGResponse` of `rag.interface`. -/
structure RAGResponse where
  response : String
  sources : List SChunk
  contextUsed : String
  tokenCount : Nat
  confidence : ℚ
deriving DecidableEq, Repr

/-- The canned zero-result reply of `RAGAIService.generateRAGResponse`. -/
def noInfoResponse : RAGResponse :=
  { response := "I couldn\x27t find any relevant information in the knowledge base to answer your question. Please try rephrasing your query or upload relevant documents.",
    sources := [], contextUsed := "", tokenCount := 0, confidence := 0 }

/-- `RAGAIService.generateRAGResponse` after the semantic search, with
the search results, the external text-generation reply and the tokenizer
as parameters: zero results short-circuit to the canned reply; otherwise
the context is assembled within `maxContextTokens || 4000` and the
confidence is computed from the full `searchResults` list. -/
def generateRAGResponse (encode : String → List Nat)
    (searchResults : List SearchResult) (claudeResponse : String)
    (maxContextTokens : Option Nat) : RAGResponse :=
  if searchResults.length = 0 then noInfoResponse
  else
    let bc := buildContext encode searchResults (jsOrNat maxContextTokens 4000)
    { response := claudeResponse,
      sources := bc.2,
      contextUsed := bc.1,
      tokenCount := (encode claudeResponse).length,
      confidence := calculateConfidence searchResults claudeResponse }

/-- The confidence formula as the SPEC words it (section 4.6, claim C3):
`min(1, 0.7*avgSimilarityOfUsedSources + 0.2*min(1, sourceCount/5) +
0.1*min(1, answerLength/1000))`, over the similarities of the sources
actually used in the assembled context. -/
def confidenceClaimedSpec (usedSims : List ℚ) (answerLength : Nat) : ℚ :=
  min 1 (0.7 * (usedSims.sum / (usedSims.length : ℚ))
    + 0.2 * min 1 ((usedSims.length : ℚ) / 5)
    + 0.1 * min 1 ((answerLength : ℚ) / 1000))

/-- One bulk `collection.add` call: the parallel per-chunk arrays passed
to the store (the random chunk ids and metadata objects are opaque and
not modelled). -/
structure BatchAdd where
  documents : List String
  embeddings : List (List ℚ)
deriving DecidableEq, Repr

/-- The caller-visible part of `DocumentProcessingResult`. -/
structure ProcessResult where
  success : Bool
  chunksCreated : Nat
  error : Option String
deriving DecidableEq, Repr

/-- The `for (const chunk of chunks)` embedding loop of
`RAGService.processDocument`: embed every chunk's content in order; the
first failing `generateEmbedding` call throws, aborting the loop. -/
def embedChunks (embed : String → Except String (List ℚ)) :
    List DocChunk → Except String (List (List ℚ))
  | [] => .ok []
  | c :: rest =>
    match embed c.content with
    | .error e => .error e
    | .ok v =>
      match embedChunks embed rest with
      | .error e => .error e
      | .ok vs => .ok (v :: vs)

/-- `RAGService.processDocument` with the tokenizer (`tokenize`/`decode`)
and the embedding pipeline (`embed`) as parameters.  Returns the
processing result together with the list of store `add` calls issued
(`none` if the chunking loop did not finish within `fuel`).  An
uninitialized service fails fast with no store call; a thrown embedding
error is caught and reported with no store call; on success all chunks
go to the store in one batch `add`.  (With zero chunks the source still
issues the empty `add` and then throws on `chunks[0].metadata`, caught
as a failure.) -/
def processDocument (initialized : Bool) (tokenize : String → List Nat)
    (decode : List Nat → String) (embed : String → Except String (List ℚ))
    (fuel : Nat) (content : String) :
    Option (ProcessResult × List BatchAdd) :=
  if initialized then
    match createDocumentChunks decode 500 50 (tokenize (cleanContentRag content)) fuel with
    | none => none
    | some chunks =>
      match embedChunks embed chunks with
      | .error e =>
        some ({ success := false, chunksCreated := 0, error := some e }, [])
      | .ok embeddings =>
        let batch : BatchAdd :=
          { documents := chunks.map (fun c => c.content), embeddings := embeddings }
        match chunks with
        | [] =>
          some ({ success := false, chunksCreated := 0,
                  error := some "TypeError" }, [batch])
        | _ :: _ =>
          some ({ success := true, chunksCreated := chunks.length,
                  error := none }, [batch])
  else
    some ({ success := false, chunksCreated := 0,
            error := some "RAG Service not initialized - ChromaDB unavailable" }, [])

/-! ### Derived quantities used in theorem statements -/

/-- Token count of one formatted search result, as `buildContext`
measures it. -/
def fmtTokens (encode : String → List Nat) (r : SearchResult) : Nat :=
  (encode (formatSource r.chunk)).length

/-- Total token count of a list of formatted search results. -/
def contextTokens (encode : String → List Nat) (rs : List SearchResult) : Nat :=
  (rs.map (fmtTokens encode)).sum

/-- Concatenation of a list of strings (the shape of the assembled
context). -/
def concatStrings : List String → String
  | [] => ""
  | s :: rest => s ++ concatStrings rest

/-- The keyword-overlap score as the spec words it (section 4.4 step 6):
count of query words that are a substring of, or contain, some content
word, divided by the number of query words, after case-insensitive
whitespace tokenization. -/
def keywordScoreSpec (query content : String) : ℚ :=
  let queryWords := jsSplitWs (jsToLower query)
  let contentWords := jsSplitWs (jsToLower content)
  ((queryWords.countP (fun word =>
      contentWords.any (fun cWord => jsIncludes cWord word || jsIncludes word cWord)) : ℚ))
    / (queryWords.length : ℚ)

/-- True iff the list contains three consecutive newline characters
(the pattern `/\n{3,}/` matches). -/
def hasNN3 : List Char → Bool
  | [] => false
  | c :: rest => (c = '\n' && rest.take 2 = ['\n', '\n']) || hasNN3 rest

/-- True iff the list contains two consecutive space characters (the
pattern `/ {2,}/` matches). -/
def hasSS : List Char → Bool
  | [] => false
  | c :: rest => (c = ' ' && rest.take 1 = [' ']) || hasSS rest

/-! ### Concrete fixtures used by the theorems -/

/-- A concrete tokenizer decode: every token decodes to one (non-space)
character, so a window of `n` tokens decodes to `n` characters. -/
def decodeOneChar (ts : List Nat) : String :=
  String.mk (List.replicate ts.length 'b')

/-- A 1200-token input (the spec's chunking example). -/
def tokens1200 : List Nat := List.replicate 1200 0

/-- A 100-token input on which the source chunking loop terminates with
the decode below. -/
def tokens100 : List Nat := List.replicate 100 0

/-- A concrete decode under which chunking of `tokens100` terminates: a
window of at least 100 tokens decodes to 50 characters, any shorter
window to the empty string (so the trailing 50-token window is skipped
as a short chunk and the cursor reaches the end). -/
def decodeGate (ts : List Nat) : String :=
  if 100 ≤ ts.length then String.mk (List.replicate 50 'b') else ""

/-- The chunk list `createDocumentChunks decodeGate 500 50 tokens100 3`
produces. -/
def chunksGate : List DocChunk :=
  [{ content := String.mk (List.replicate 50 'b'), chunkIndex := 0,
     totalChunks := 1, tokenCount := 100, startTok := 0, endTok := 100 }]

/-- A tokenizer whose `encode` ignores its input and always yields
`tokens100` (used to drive `processDocument` to the `chunksGate`
chunking). -/
def tokenizeConst (_ : String) : List Nat := tokens100

/-- An embedding pipeline whose every call fails. -/
def embedFail (_ : String) : Except String (List ℚ) :=
  Except.error "Embedding generation failed: model offline"

/-- A tokenizer encode assigning one token per character. -/
def encodePerChar (s : String) : List Nat := List.replicate s.length 0

/-- First fixture search result: similarity 1. -/
def srAlpha : SearchResult :=
  { chunk := { id := "1", content := "alpha", fileName := "f" },
    similarity := 1, relevance := 0 }

/-- Second fixture search result: similarity 0. -/
def srBeta : SearchResult :=
  { chunk := { id := "2", content := "beta", fileName := "g" },
    similarity := 0, relevance := 0 }

/-- A store reply with one neighbor at distance 2/5 (similarity 3/5). -/
def respMid : QueryResponse :=
  { ids := ["a"], docs := ["doc"], fileNames := ["f"], distances := [2/5] }

/-- A store reply with one neighbor at distance 4/5 (similarity 1/5,
below the default threshold 0.7). -/
def respFar : QueryResponse :=
  { ids := ["x"], docs := ["far away"], fileNames := ["f"], distances := [4/5] }

/-- The spec's relevance example: store reply holding one chunk at
cosine distance 1/20 (similarity 0.95) whose content shares the keyword
"revenue" with the query "revenue growth". -/
def respRevenue : QueryResponse :=
  { ids := ["r1"], docs := ["revenue increased this year"], fileNames := ["r"],
    distances := [1/20] }

/-- The query of the spec's relevance example. -/
def queryRevenue : String := "revenue growth"

/-- Input on which content cleaning is not idempotent: the first
`\r\n`-replacement turns `\r\r\n` into `\r\n`, which a second pass
replaces again. -/
def crInput : String := "a\r\r\nb"

end LifRag

namespace LifRag

/-! ### Theorems -/

/-- From cursor 1150 on the 1200-token input, every iteration of the
source's chunking loop processes the full window `[1150, 1200)` (50
tokens, decoding to 50 ≥ 50 characters, hence emitted) and sets the
cursor back to `1200 - 50 = 1150`: the loop never exits, whatever the
fuel. -/
theorem chunkLoop1200_none_at1150 :
    ∀ fuel ci acc, chunkLoop decodeOneChar 500 50 tokens1200 fuel 1150 ci acc = none := by
  intro fuel
  induction fuel with
  | zero => intro ci acc; rfl
  | succ n ih =>
    intro ci acc
    show chunkLoop decodeOneChar 500 50 tokens1200 n 1150 (ci + 1) _ = none
    exact ih (ci + 1) _

theorem chunkLoop1200_none_at900 :
    ∀ fuel ci acc, chunkLoop decodeOneChar 500 50 tokens1200 fuel 900 ci acc = none := by
  intro fuel
  cases fuel with
  | zero => intro ci acc; rfl
  | succ n =>
    intro ci acc
    show chunkLoop decodeOneChar 500 50 tokens1200 n 1150 (ci + 1) _ = none
    exact chunkLoop1200_none_at1150 n (ci + 1) _

theorem chunkLoop1200_none_at450 :
    ∀ fuel ci acc, chunkLoop decodeOneChar 500 50 tokens1200 fuel 450 ci acc = none := by
  intro fuel
  cases fuel with
  | zero => intro ci acc; rfl
  | succ n =>
    intro ci acc
    show chunkLoop decodeOneChar 500 50 tokens1200 n 900 (ci + 1) _ = none
    exact chunkLoop1200_none_at900 n (ci + 1) _

theorem chunkLoop1200_none_at0 :
    ∀ fuel ci acc, chunkLoop decodeOneChar 500 50 tokens1200 fuel 0 ci acc = none := by
  intro fuel
  cases fuel with
  | zero => intro ci acc; rfl
  | succ n =>
    intro ci acc
    show chunkLoop decodeOneChar 500 50 tokens1200 n 450 (ci + 1) _ = none
    exact chunkLoop1200_none_at450 n (ci + 1) _

/-- C1.  The claim says chunking terminates for every input under any
configuration with `chunkOverlap < chunkSize`, and in particular that the
loop terminates after processing a window whose end reaches the end of
the token sequence.  The code does not: with the default configuration
(500/50) and a 1200-token input each of whose tokens decodes to one
character, after the window `[900, 1200)` the cursor is set to
`1200 - 50 = 1150 < 1200`, the window `[1150, 1200)` is emitted and the
cursor returns to 1150 forever — `createDocumentChunks` never returns,
whatever the iteration budget. -/
theorem c1_chunking_diverges :
    ∀ fuel, createDocumentChunks decodeOneChar 500 50 tokens1200 fuel = none := by
  intro fuel
  unfold createDocumentChunks
  rw [chunkLoop1200_none_at0 fuel 0 []]
  rfl

/-- C2.  With `chunkSize = 500`, `chunkOverlap = 50` and a 1200-token
input (one character per token), the chunker as the SPEC describes it
produces exactly the windows `[0,500)`, `[450,950)`, `[900,1200)` — but
the source's `createDocumentChunks` never returns on this input (it
re-emits the window `[1150,1200)` forever), so it does not produce the
claimed chunks, nor any others. -/
theorem c2_chunk_offsets :
    (specCreateChunks decodeOneChar 500 50 tokens1200 10).map
        (fun cs => cs.map (fun c => (c.startTok, c.endTok)))
      = some [((0 : Int), (500 : Int)), (450, 950), (900, 1200)]
    ∧ ∀ fuel cs, createDocumentChunks decodeOneChar 500 50 tokens1200 fuel ≠ some cs := by
  constructor
  · rfl
  · intro fuel cs h
    unfold createDocumentChunks at h
    rw [chunkLoop1200_none_at0 fuel 0 []] at h
    exact Option.noConfusion h

/-- Whatever the chunking loop appends beyond its accumulator carries
consecutive `chunkIndex` values starting at the running counter. -/
theorem chunkLoop_indices (decode : List Nat → String) (cs ov : Nat)
    (tokens : List Nat) :
    ∀ fuel (start : Int) ci acc res,
      chunkLoop decode cs ov tokens fuel start ci acc = some res →
      ∃ t, res = acc ++ t
        ∧ t.map (fun c => c.chunkIndex) = List.range' ci t.length := by
  intro fuel
  induction fuel with
  | zero => intro start ci acc res h; exact Option.noConfusion h
  | succ n ih =>
    intro start ci acc res h
    rw [chunkLoop] at h
    split at h
    · dsimp only at h
      split at h
      · exact ih _ ci acc res h
      · obtain ⟨t, ht, hidx⟩ := ih _ (ci + 1) _ res h
        rw [List.append_assoc] at ht
        refine ⟨_ ++ t, ht, ?_⟩
        simp [hidx, List.range'_succ]
    · refine ⟨[], ?_, rfl⟩
      simpa using h.symm

/-- C6.  Whenever `createDocumentChunks` returns, every produced chunk's
`totalChunks` equals the number of chunks produced, and the `chunkIndex`
values are exactly `0, 1, …, totalChunks - 1` in production order. -/
theorem c6_chunk_metadata (decode : List Nat → String) (cs ov : Nat)
    (tokens : List Nat) (fuel : Nat) (chunks : List DocChunk)
    (h : createDocumentChunks decode cs ov tokens fuel = some chunks) :
    (∀ c ∈ chunks, c.totalChunks = chunks.length)
    ∧ chunks.map (fun c => c.chunkIndex) = List.range chunks.length := by
  unfold createDocumentChunks at h
  obtain ⟨res, hres, hchunks⟩ := Option.map_eq_some'.mp h
  obtain ⟨t, ht, hidx⟩ := chunkLoop_indices decode cs ov tokens fuel 0 0 [] res hres
  simp only [List.nil_append] at ht
  subst ht
  subst hchunks
  constructor
  · intro c hc
    obtain ⟨c₀, _, rfl⟩ := List.mem_map.mp hc
    simp [List.length_map]
  · simp only [List.map_map, List.length_map]
    have : ((fun c => c.chunkIndex) ∘
        fun c => { c with totalChunks := res.length } : DocChunk → Nat)
        = fun c => c.chunkIndex := rfl
    rw [this, hidx, List.range_eq_range']

/-- Witness for C6 at a concrete terminating run: 100 tokens, one
emitted chunk, `totalChunks = 1`, index list `[0]`. -/
theorem c6_chunk_metadata_witness :
    (∀ c ∈ chunksGate, c.totalChunks = chunksGate.length)
    ∧ chunksGate.map (fun c => c.chunkIndex) = List.range chunksGate.length :=
  c6_chunk_metadata decodeGate 500 50 tokens100 3 chunksGate (by rfl)

/-- If some chunk's embedding call fails, the embedding loop as a whole
fails. -/
theorem embedChunks_error_of_mem (embed : String → Except String (List ℚ)) :
    ∀ (chunks : List DocChunk) (c : DocChunk) (e : String),
      c ∈ chunks → embed c.content = Except.error e →
      ∃ e', embedChunks embed chunks = Except.error e' := by
  intro chunks
  induction chunks with
  | nil => intro c e hc _; exact absurd hc (List.not_mem_nil c)
  | cons a t ih =>
    intro c e hc he
    rcases List.mem_cons.mp hc with rfl | hct
    · exact ⟨e, by simp [embedChunks, he]⟩
    · obtain ⟨e', he'⟩ := ih c e hct he
      unfold embedChunks
      rcases ha : embed a.content with ea | va
      · exact ⟨ea, rfl⟩
      · exact ⟨e', by rw [he']⟩

/-- C5.  Atomic document indexing: when the chunking stage yields
`chunks`, a failure while embedding any chunk makes `processDocument`
report failure with NO store call at all, and on success all chunk
upserts happen in a single batch `add` issued only after every chunk has
its embedding. -/
theorem c5_atomic_indexing (tokenize : String → List Nat)
    (decode : List Nat → String) (embed : String → Except String (List ℚ))
    (fuel : Nat) (content : String) (chunks : List DocChunk)
    (hchunks : createDocumentChunks decode 500 50
        (tokenize (cleanContentRag content)) fuel = some chunks) :
    ((∃ c ∈ chunks, ∃ e, embed c.content = Except.error e) →
      ∃ r, processDocument true tokenize decode embed fuel content = some (r, [])
        ∧ r.success = false)
    ∧ (∀ embeddings, embedChunks embed chunks = Except.ok embeddings →
      ∃ r, processDocument true tokenize decode embed fuel content
          = some (r, [{ documents := chunks.map (fun c => c.content),
                        embeddings := embeddings }])) := by
  constructor
  · rintro ⟨c, hc, e, he⟩
    obtain ⟨e', he'⟩ := embedChunks_error_of_mem embed chunks c e hc he
    refine ⟨{ success := false, chunksCreated := 0, error := some e' }, ?_, rfl⟩
    simp only [processDocument, if_pos, hchunks, he']
  · intro embeddings hok
    unfold processDocument
    simp only [if_pos, hchunks, hok]
    cases chunks with
    | nil => exact ⟨_, rfl⟩
    | cons a t => exact ⟨_, rfl⟩

/-- Witness for C5: with an embedding pipeline whose every call fails,
processing the fixture document commits nothing to the store and reports
failure. -/
theorem c5_atomic_indexing_witness :
    ∃ r, processDocument true tokenizeConst decodeGate embedFail 3 "doc"
        = some (r, []) ∧ r.success = false :=
  (c5_atomic_indexing tokenizeConst decodeGate embedFail 3 "doc" chunksGate
      (by rfl)).1
    ⟨chunksGate.head (by simp [chunksGate]), by simp [chunksGate],
      "Embedding generation failed: model offline", rfl⟩

/-- Invariant of the `buildContext` loop: starting from any accumulated
context, sources and running count within budget, the loop returns the
accumulators extended by a greedy prefix of the remaining results. -/
theorem buildContextGo_spec (encode : String → List Nat) (maxTokens : Nat) :
    ∀ (rs : List SearchResult) (ctx : String) (srcs : List SChunk) (tc : Nat),
      tc ≤ maxTokens →
      ∃ k, buildContextGo encode maxTokens rs ctx srcs tc
          = (ctx ++ concatStrings ((rs.take k).map (fun r => formatSource r.chunk)),
             srcs ++ (rs.take k).map (fun r => r.chunk))
        ∧ tc + contextTokens encode (rs.take k) ≤ maxTokens
        ∧ (k < rs.length →
            maxTokens < tc + contextTokens encode (rs.take (k + 1))) := by
  intro rs
  induction rs with
  | nil =>
    intro ctx srcs tc htc
    refine ⟨0, ?_, ?_, ?_⟩
    · simp [buildContextGo, concatStrings]
    · simpa [contextTokens]
    · intro h; exact absurd h (by simp)
  | cons r rest ih =>
    intro ctx srcs tc htc
    by_cases hov : maxTokens < tc + fmtTokens encode r
    · refine ⟨0, ?_, ?_, ?_⟩
      · rw [buildContextGo, if_pos (by simpa [fmtTokens] using hov)]
        simp [concatStrings]
      · simpa [contextTokens]
      · intro _
        simpa [contextTokens, fmtTokens] using hov
    · have htc' : tc + fmtTokens encode r ≤ maxTokens := Nat.not_lt.mp hov
      obtain ⟨k, hgo, hle, hov'⟩ :=
        ih (ctx ++ formatSource r.chunk) (srcs ++ [r.chunk]) (tc + fmtTokens encode r) htc'
      simp only [fmtTokens] at hgo hle hov'
      refine ⟨k + 1, ?_, ?_, ?_⟩
      · rw [buildContextGo, if_neg (by simpa [fmtTokens] using hov), hgo]
        simp [List.take_succ_cons, concatStrings, String.append_assoc]
      · simpa [List.take_succ_cons, contextTokens, fmtTokens, Nat.add_assoc] using hle
      · intro hk
        have := hov' (by simpa using hk)
        simpa [List.take_succ_cons, contextTokens, fmtTokens, Nat.add_assoc] using this

/-- C7.  Context assembly returns a greedy prefix of the result list:
the used sources are the chunks of the first `k` results, the context is
the concatenation of their formatted texts, the total token count of the
included results never exceeds `maxTokens`, and if anything was excluded
then already the next result would have pushed the total over the
budget (so it and everything after it are excluded; `k = 0`, an empty
context, is possible). -/
theorem c7_context_budget (encode : String → List Nat)
    (searchResults : List SearchResult) (maxTokens : Nat) :
    ∃ k, buildContext encode searchResults maxTokens
        = (concatStrings ((searchResults.take k).map (fun r => formatSource r.chunk)),
           (searchResults.take k).map (fun r => r.chunk))
      ∧ contextTokens encode (searchResults.take k) ≤ maxTokens
      ∧ (k < searchResults.length →
          maxTokens < contextTokens encode (searchResults.take (k + 1))) := by
  obtain ⟨k, hgo, hle, hov⟩ :=
    buildContextGo_spec encode maxTokens searchResults "" [] 0 (Nat.zero_le _)
  refine ⟨k, ?_, by simpa using hle, by simpa using hov⟩
  unfold buildContext
  rw [hgo]
  simp [String.empty_append]

/-- Witness instance of C7's greedy-prefix statement at a concrete
input. -/
theorem c7_context_budget_witness :
    ∃ k, buildContext encodePerChar [srAlpha, srBeta] 30
        = (concatStrings (([srAlpha, srBeta].take k).map (fun r => formatSource r.chunk)),
           ([srAlpha, srBeta].take k).map (fun r => r.chunk))
      ∧ contextTokens encodePerChar ([srAlpha, srBeta].take k) ≤ 30
      ∧ (k < ([srAlpha, srBeta] : List SearchResult).length →
          30 < contextTokens encodePerChar ([srAlpha, srBeta].take (k + 1))) :=
  c7_context_budget encodePerChar [srAlpha, srBeta] 30

/-- C3 counterexample.  With two retrieved results (similarities 1 and
0) of which only the first fits into the context budget, the used
sources are exactly the first chunk, yet the returned confidence is NOT
the spec's formula over the used sources (the code got 43/100 = 0.43,
the formula over the one used source gives 37/50 = 0.74): the source
passes the full `searchResults` list, not the used subset, to
`calculateConfidence`. -/
theorem c3_confidence_counterexample :
    (generateRAGResponse encodePerChar [srAlpha, srBeta] "" (some 30)).sources
        = [srAlpha.chunk]
    ∧ (generateRAGResponse encodePerChar [srAlpha, srBeta] "" (some 30)).confidence
        ≠ confidenceClaimedSpec [srAlpha.similarity] (String.length "") := by
  constructor
  · rfl
  · have h1 : (generateRAGResponse encodePerChar [srAlpha, srBeta] "" (some 30)).confidence
        = 43/100 := by
      norm_num [generateRAGResponse, calculateConfidence, srAlpha, srBeta, min_def]
    have h2 : confidenceClaimedSpec [srAlpha.similarity] (String.length "") = 37/50 := by
      norm_num [confidenceClaimedSpec, srAlpha, min_def]
    rw [h1, h2]
    norm_num

/-- C3 amended.  For every non-empty search-result list the returned
confidence equals the spec's formula applied to the similarities of ALL
retrieved results (and the answer length), not only of the sources used
in the assembled context. -/
theorem c3_confidence_over_all_results (encode : String → List Nat)
    (searchResults : List SearchResult) (claudeResponse : String)
    (maxContextTokens : Option Nat) (h : searchResults ≠ []) :
    (generateRAGResponse encode searchResults claudeResponse maxContextTokens).confidence
      = confidenceClaimedSpec (searchResults.map (fun r => r.similarity))
          claudeResponse.length := by
  have hlen : searchResults.length ≠ 0 := fun h0 => h (List.length_eq_zero.mp h0)
  unfold generateRAGResponse
  rw [if_neg hlen]
  unfold calculateConfidence confidenceClaimedSpec
  rw [if_neg hlen]
  rw [List.length_map]
  rw [min_comm _ (1 : ℚ)]
  ring_nf
  rw [min_comm ((searchResults.length : ℚ) * (1/5)) 1,
    min_comm ((claudeResponse.length : ℚ) * (1/1000)) 1]

/-- Witness for C3's amended statement at a concrete input. -/
theorem c3_confidence_over_all_results_witness :
    (generateRAGResponse encodePerChar [srAlpha, srBeta] "" (some 30)).confidence
      = confidenceClaimedSpec ([srAlpha, srBeta].map (fun r => r.similarity))
          (String.length "") :=
  c3_confidence_over_all_results encodePerChar [srAlpha, srBeta] "" (some 30)
    (by simp)

/-- Keeping fewer elements keeps the filtered list no longer: if every
element passing the stricter test passes the laxer one, the stricter
`filterMap` yields at most as many results. -/
theorem filterMap_ite_length_le {β γ : Type} (l : List β) (p q : β → Prop)
    [DecidablePred p] [DecidablePred q] (f : β → γ) (h : ∀ x, q x → p x) :
    (l.filterMap (fun x => if q x then some (f x) else none)).length
      ≤ (l.filterMap (fun x => if p x then some (f x) else none)).length := by
  induction l with
  | nil => simp
  | cons a t ih =>
    by_cases hq : q a
    · simp only [List.filterMap_cons, if_pos hq, if_pos (h a hq)]
      simpa using ih
    · simp only [List.filterMap_cons, if_neg hq]
      by_cases hp : p a
      · simp only [if_pos hp]
        exact le_trans ih (by simp [Nat.le_succ])
      · simp only [if_neg hp]
        exact ih

/-- C4 amended.  For nonzero thresholds `0 < t1 ≤ t2`, searching with
`t2` returns no more results than searching with `t1` (for the same
query, store reply and initialization state).  The restriction to
nonzero `t1` is forced by the `options.threshold || 0.7` default, which
treats the legal threshold 0 as unset. -/
theorem c4_threshold_monotone (initialized : Bool) (query : String)
    (resp : QueryResponse) (t1 t2 : ℚ) (h0 : 0 < t1) (h12 : t1 ≤ t2) :
    (semanticSearch initialized query resp (some t2)).length
      ≤ (semanticSearch initialized query resp (some t1)).length := by
  cases initialized with
  | false => simp [semanticSearch]
  | true =>
    have ht1 : jsOrQ (some t1) 0.7 = t1 := by
      simp [jsOrQ, (ne_of_gt h0 : t1 ≠ 0).symm, ne_of_gt h0]
    have ht2 : jsOrQ (some t2) 0.7 = t2 := by
      have : t2 ≠ 0 := ne_of_gt (lt_of_lt_of_le h0 h12)
      simp [jsOrQ, this]
    simp only [semanticSearch, if_true, processQueryResults, List.length_mergeSort,
      ht1, ht2]
    exact filterMap_ite_length_le _ _ _ _ (fun i hi => le_trans h12 hi)

/-- C4 counterexample.  The claim ranges over all thresholds in `[0,1]`:
with `t1 = 0 ≤ t2 = 1/2` and one stored neighbor at similarity 3/5,
searching with the larger threshold returns MORE results (1 against 0),
because the code's `options.threshold || 0.7` replaces the falsy
threshold 0 by the default 0.7. -/
theorem c4_threshold_zero_counterexample :
    ¬ ((semanticSearch true "q" respMid (some (1/2))).length
        ≤ (semanticSearch true "q" respMid (some 0)).length)
    ∧ (0 : ℚ) ≤ 1/2 ∧ (1/2 : ℚ) ≤ 1 := by
  refine ⟨?_, by norm_num, by norm_num⟩
  have h1 : (semanticSearch true "q" respMid (some (1/2))).length = 1 := by
    norm_num [semanticSearch, processQueryResults, jsOrQ, respMid, List.range_succ,
      List.mergeSort_singleton, List.filterMap_cons, List.filterMap_nil,
      List.getElem?_cons_zero]
  have h0 : (semanticSearch true "q" respMid (some 0)).length = 0 := by
    norm_num [semanticSearch, processQueryResults, jsOrQ, respMid, List.range_succ,
      List.filterMap_cons, List.filterMap_nil, List.getElem?_cons_zero]
  rw [h1, h0]
  omega

/-- Witness for C4's amended statement at concrete nonzero thresholds. -/
theorem c4_threshold_monotone_witness :
    (semanticSearch true "q" respMid (some (3/4))).length
      ≤ (semanticSearch true "q" respMid (some (1/2))).length :=
  c4_threshold_monotone true "q" respMid (1/2) (3/4) (by norm_num) (by norm_num)

/-- C8.  Relevance is `0.8*s + 0.2*keywordScore` for every query,
content and similarity; and on the spec's example (query "revenue
growth" against a chunk sharing the keyword "revenue", similarity 0.95,
threshold 0.9) the keyword score is 1/2, the relevance is 0.86 = 43/50,
and the chunk is retained by the search with exactly that relevance. -/
theorem c8_relevance_blend :
    (∀ (q c : String) (s : ℚ),
        calculateRelevance q c s = 0.8 * s + 0.2 * keywordScoreSpec q c)
    ∧ keywordScoreSpec queryRevenue "revenue increased this year" = 1/2
    ∧ calculateRelevance queryRevenue "revenue increased this year" (19/20) = 43/50
    ∧ (semanticSearch true queryRevenue respRevenue (some (9/10))).map
        (fun r => (r.similarity, r.relevance)) = [((19/20 : ℚ), (43/50 : ℚ))] := by
  have hgen : ∀ (q c : String) (s : ℚ),
      calculateRelevance q c s = 0.8 * s + 0.2 * keywordScoreSpec q c := by
    intro q c s
    simp only [calculateRelevance, keywordScoreSpec]
    ring
  have hks : keywordScoreSpec queryRevenue "revenue increased this year" = 1/2 := by
    have h1 : (jsSplitWs (jsToLower queryRevenue)).countP (fun word =>
        (jsSplitWs (jsToLower "revenue increased this year")).any
          (fun cWord => jsIncludes cWord word || jsIncludes word cWord)) = 1 := by decide
    have h2 : (jsSplitWs (jsToLower queryRevenue)).length = 2 := by decide
    simp only [keywordScoreSpec]
    rw [h1, h2]
    norm_num
  have hrel : calculateRelevance queryRevenue "revenue increased this year" (19/20)
      = 43/50 := by
    rw [hgen, hks]
    norm_num
  refine ⟨hgen, hks, hrel, ?_⟩
  have hmap : semanticSearch true queryRevenue respRevenue (some (9/10))
      = [{ chunk := { id := "r1", content := "revenue increased this year",
                      fileName := "r" },
           similarity := 19/20,
           relevance := calculateRelevance queryRevenue
             "revenue increased this year" (19/20) }] := by
    norm_num [semanticSearch, processQueryResults, jsOrQ, respRevenue, List.range_succ,
      List.mergeSort_singleton, List.filterMap_cons, List.filterMap_nil,
      List.getElem?_cons_zero]
  rw [hmap]
  simp [hrel]

/-- C9.  The empty-result paths: an uninitialized service returns `[]`;
a store reply with no documents yields `[]`; a reply all of whose
neighbors fall below the effective threshold yields `[]`; and the RAG
answer path on zero results returns the canned no-information response,
whose sources are empty, context empty, token count 0 and confidence 0
— all as ordinary return values, never an error. -/
theorem c9_empty_result_handling (encode : String → List Nat) (query : String)
    (resp : QueryResponse) (thr : Option ℚ) (claudeResponse : String)
    (mct : Option Nat) :
    semanticSearch false query resp thr = []
    ∧ (resp.docs = [] → semanticSearch true query resp thr = [])
    ∧ ((∀ i, i < resp.docs.length →
          1 - jsOrQ (resp.distances.get? i) 1 < jsOrQ thr 0.7) →
        semanticSearch true query resp thr = [])
    ∧ generateRAGResponse encode [] claudeResponse mct = noInfoResponse
    ∧ noInfoResponse.sources = [] ∧ noInfoResponse.contextUsed = ""
    ∧ noInfoResponse.tokenCount = 0 ∧ noInfoResponse.confidence = 0 := by
  refine ⟨by simp [semanticSearch], ?_, ?_, rfl, rfl, rfl, rfl, rfl⟩
  · intro h
    simp [semanticSearch, processQueryResults, h]
  · intro h
    simp only [semanticSearch, if_true, processQueryResults]
    have hnil : (List.range resp.docs.length).filterMap (fun i =>
        if jsOrQ thr 0.7 ≤ 1 - jsOrQ (resp.distances.get? i) 1 then
          some ({ chunk := { id := resp.ids.getD i "",
                             content := resp.docs.getD i "",
                             fileName := resp.fileNames.getD i "" },
                  similarity := 1 - jsOrQ (resp.distances.get? i) 1,
                  relevance := calculateRelevance query (resp.docs.getD i "")
                    (1 - jsOrQ (resp.distances.get? i) 1) } : SearchResult)
        else none) = [] := by
      rw [List.filterMap_eq_nil_iff]
      intro i hi
      rw [if_neg (not_le.mpr (h i (List.mem_range.mp hi)))]
    rw [hnil, List.mergeSort_nil]

/-- Witness for C9 at a concrete reply whose single neighbor is below
the default threshold, and a concrete empty-result answer. -/
theorem c9_empty_result_handling_witness :
    semanticSearch true "anything" respFar none = []
    ∧ generateRAGResponse encodePerChar [] "resp" none = noInfoResponse := by
  refine ⟨(c9_empty_result_handling encodePerChar "anything" respFar none
      "resp" none).2.2.1 ?_,
    (c9_empty_result_handling encodePerChar "anything" respFar none
      "resp" none).2.2.2.1⟩
  intro i hi
  have hi0 : i = 0 := Nat.lt_one_iff.mp (by simpa [respFar] using hi)
  subst hi0
  norm_num [respFar, jsOrQ]

/-! ### Supporting lemmas on the content-cleaning passes (claim C10) -/

theorem replCrlf_eq_self {l : List Char} (h : '\r' ∉ l) : replCrlf l = l := by
  induction l with
  | nil => rfl
  | cons c rest ih =>
    have hc : c ≠ '\r' := fun hc => h (hc ▸ List.mem_cons_self c rest)
    rw [replCrlf, if_neg (fun hp => hc hp.1),
      ih (fun hm => h (List.mem_cons_of_mem c hm))]

theorem mem_replCrlf {c : Char} {l : List Char} (h : c ∈ replCrlf l) : c ∈ l := by
  induction l with
  | nil => exact absurd h (List.not_mem_nil c)
  | cons a rest ih =>
    rw [replCrlf] at h
    split at h
    · exact List.mem_cons_of_mem a (ih h)
    · rcases List.mem_cons.mp h with rfl | hm
      · exact List.mem_cons_self c rest
      · exact List.mem_cons_of_mem a (ih hm)

theorem mem_replNl3 {c : Char} {l : List Char} (h : c ∈ replNl3 l) : c ∈ l := by
  induction l with
  | nil => exact absurd h (List.not_mem_nil c)
  | cons a rest ih =>
    rw [replNl3] at h
    split at h
    · exact List.mem_cons_of_mem a (ih h)
    · rcases List.mem_cons.mp h with rfl | hm
      · exact List.mem_cons_self c rest
      · exact List.mem_cons_of_mem a (ih hm)

theorem mem_replSp2 {c : Char} {l : List Char} (h : c ∈ replSp2 l) : c ∈ l := by
  induction l with
  | nil => exact absurd h (List.not_mem_nil c)
  | cons a rest ih =>
    rw [replSp2] at h
    split at h
    · exact List.mem_cons_of_mem a (ih h)
    · rcases List.mem_cons.mp h with rfl | hm
      · exact List.mem_cons_self c rest
      · exact List.mem_cons_of_mem a (ih hm)

theorem mem_replTab {c : Char} {l : List Char} (h : c ∈ replTab l) :
    c = ' ' ∨ c ∈ l := by
  obtain ⟨a, ha, hg⟩ := List.mem_map.mp h
  by_cases hat : a = '\t'
  · left; rw [← hg, if_pos hat]
  · right; rw [← hg, if_neg hat]; exact ha

theorem mem_jsTrimL {c : Char} {l : List Char} (h : c ∈ jsTrimL l) : c ∈ l := by
  unfold jsTrimL at h
  have h1 := (List.dropWhile_sublist jsIsWs).subset (List.mem_reverse.mp h)
  exact (List.dropWhile_sublist jsIsWs).subset (List.mem_reverse.mp h1)

theorem replTab_eq_self {l : List Char} (h : '\t' ∉ l) : replTab l = l := by
  induction l with
  | nil => rfl
  | cons c rest ih =>
    have hc : c ≠ '\t' := fun hc => h (hc ▸ List.mem_cons_self c rest)
    rw [replTab, List.map_cons, if_neg hc]
    have := ih (fun hm => h (List.mem_cons_of_mem c hm))
    rw [replTab] at this
    rw [this]

theorem not_tab_mem_replTab (l : List Char) : '\t' ∉ replTab l := by
  intro h
  obtain ⟨a, _, hg⟩ := List.mem_map.mp h
  by_cases hat : a = '\t'
  · rw [if_pos hat] at hg
    exact absurd hg (by decide)
  · rw [if_neg hat] at hg
    exact hat hg

theorem replNl3_take2 (l : List Char) : (replNl3 l).take 2 = l.take 2 := by
  induction l with
  | nil => rfl
  | cons c rest ih =>
    by_cases hc : c = '\n' ∧ rest.take 2 = ['\n', '\n']
    · rw [replNl3, if_pos hc, ih, hc.2]
      have h1 : rest.take 1 = ['\n'] := by
        have := congrArg (List.take 1) hc.2
        rwa [List.take_take, show (1 : Nat) ⊓ 2 = 1 from rfl] at this
      rw [show (c :: rest).take 2 = c :: rest.take 1 from rfl, h1, hc.1]
    · rw [replNl3, if_neg hc]
      show c :: (replNl3 rest).take 1 = c :: rest.take 1
      have h1 : (replNl3 rest).take 1 = ((replNl3 rest).take 2).take 1 := by
        rw [List.take_take]
        norm_num
      rw [h1, ih, List.take_take]
      norm_num

theorem replSp2_take1 (l : List Char) : (replSp2 l).take 1 = l.take 1 := by
  induction l with
  | nil => rfl
  | cons c rest ih =>
    by_cases hc : c = ' ' ∧ rest.take 1 = [' ']
    · rw [replSp2, if_pos hc, ih, hc.2]
      rw [show (c :: rest).take 1 = [c] from rfl, hc.1]
    · rw [replSp2, if_neg hc]
      rfl

theorem hasNN3_replNl3 (l : List Char) : hasNN3 (replNl3 l) = false := by
  induction l with
  | nil => rfl
  | cons c rest ih =>
    by_cases hc : c = '\n' ∧ rest.take 2 = ['\n', '\n']
    · rw [replNl3, if_pos hc]; exact ih
    · rw [replNl3, if_neg hc]
      simp only [hasNN3, Bool.or_eq_false_iff, ih, and_true]
      simp only [Bool.and_eq_false_iff, decide_eq_false_iff_not]
      rw [replNl3_take2]
      by_cases hcn : c = '\n'
      · exact Or.inr (fun h2 => hc ⟨hcn, h2⟩)
      · exact Or.inl hcn

theorem replNl3_eq_self {l : List Char} (h : hasNN3 l = false) : replNl3 l = l := by
  induction l with
  | nil => rfl
  | cons c rest ih =>
    simp only [hasNN3, Bool.or_eq_false_iff, Bool.and_eq_false_iff,
      decide_eq_false_iff_not] at h
    have hguard : ¬(c = '\n' ∧ rest.take 2 = ['\n', '\n']) := by
      rcases h.1 with h1 | h1
      · exact fun hp => h1 hp.1
      · exact fun hp => h1 hp.2
    rw [replNl3, if_neg hguard, ih h.2]

theorem hasSS_replSp2 (l : List Char) : hasSS (replSp2 l) = false := by
  induction l with
  | nil => rfl
  | cons c rest ih =>
    by_cases hc : c = ' ' ∧ rest.take 1 = [' ']
    · rw [replSp2, if_pos hc]; exact ih
    · rw [replSp2, if_neg hc]
      simp only [hasSS, Bool.or_eq_false_iff, ih, and_true]
      simp only [Bool.and_eq_false_iff, decide_eq_false_iff_not]
      rw [replSp2_take1]
      by_cases hcs : c = ' '
      · exact Or.inr (fun h1 => hc ⟨hcs, h1⟩)
      · exact Or.inl hcs

theorem replSp2_eq_self {l : List Char} (h : hasSS l = false) : replSp2 l = l := by
  induction l with
  | nil => rfl
  | cons c rest ih =>
    simp only [hasSS, Bool.or_eq_false_iff, Bool.and_eq_false_iff,
      decide_eq_false_iff_not] at h
    have hguard : ¬(c = ' ' ∧ rest.take 1 = [' ']) := by
      rcases h.1 with h1 | h1
      · exact fun hp => h1 hp.1
      · exact fun hp => h1 hp.2
    rw [replSp2, if_neg hguard, ih h.2]

theorem replTab_char_eq_nl {c : Char} (h : (if c = '\t' then ' ' else c) = '\n') :
    c = '\n' := by
  by_cases hat : c = '\t'
  · rw [if_pos hat] at h
    exact absurd h (by decide)
  · rwa [if_neg hat] at h

theorem replTab_pair {lt : List Char} (h : replTab lt = ['\n', '\n']) :
    lt = ['\n', '\n'] := by
  rcases lt with _ | ⟨a, _ | ⟨b, t⟩⟩
  · exact absurd h (by simp [replTab])
  · exact absurd h (by simp [replTab])
  · simp only [replTab, List.map_cons, List.cons.injEq] at h
    obtain ⟨ha, hb, ht⟩ := h
    have ht' : t = [] := List.map_eq_nil_iff.mp ht
    rw [replTab_char_eq_nl ha, replTab_char_eq_nl hb, ht']

theorem hasNN3_replTab {l : List Char} (h : hasNN3 l = false) :
    hasNN3 (replTab l) = false := by
  induction l with
  | nil => rfl
  | cons c rest ih =>
    simp only [hasNN3, Bool.or_eq_false_iff, Bool.and_eq_false_iff,
      decide_eq_false_iff_not] at h
    rw [replTab, List.map_cons]
    simp only [hasNN3, Bool.or_eq_false_iff, Bool.and_eq_false_iff,
      decide_eq_false_iff_not]
    refine ⟨?_, ?_⟩
    · by_cases hgn : (if c = '\t' then ' ' else c) = '\n'
      · refine Or.inr (fun h2 => ?_)
        have htake : (List.map (fun c => if c = '\t' then ' ' else c) rest).take 2
            = replTab (rest.take 2) := by
          rw [replTab, List.map_take]
        rw [htake] at h2
        have := replTab_pair h2
        rcases h.1 with h1 | h1
        · exact h1 (replTab_char_eq_nl hgn)
        · exact h1 this
      · exact Or.inl hgn
    · have : hasNN3 (replTab rest) = false := ih h.2
      rwa [replTab] at this

theorem replSp2_take2_nl {l : List Char} (h : (replSp2 l).take 2 = ['\n', '\n']) :
    l.take 2 = ['\n', '\n'] := by
  rcases l with _ | ⟨r, rs⟩
  · exact absurd h (by simp [replSp2])
  · by_cases hr : r = ' ' ∧ rs.take 1 = [' ']
    · rw [replSp2, if_pos hr] at h
      have h1 : (replSp2 rs).take 1 = ['\n'] := by
        have := congrArg (List.take 1) h
        rwa [List.take_take, show (1 : Nat) ⊓ 2 = 1 from rfl] at this
      rw [replSp2_take1, hr.2] at h1
      exact absurd h1 (by decide)
    · rw [replSp2, if_neg hr] at h
      have h2 : (r :: replSp2 rs).take 2 = r :: (replSp2 rs).take 1 := rfl
      rw [h2, replSp2_take1] at h
      exact h

theorem hasNN3_replSp2 {l : List Char} (h : hasNN3 l = false) :
    hasNN3 (replSp2 l) = false := by
  induction l with
  | nil => rfl
  | cons c rest ih =>
    simp only [hasNN3, Bool.or_eq_false_iff, Bool.and_eq_false_iff,
      decide_eq_false_iff_not] at h
    by_cases hc : c = ' ' ∧ rest.take 1 = [' ']
    · rw [replSp2, if_pos hc]
      exact ih h.2
    · rw [replSp2, if_neg hc]
      simp only [hasNN3, Bool.or_eq_false_iff, Bool.and_eq_false_iff,
        decide_eq_false_iff_not, ih h.2, and_true]
      by_cases hcn : c = '\n'
      · refine Or.inr (fun h2 => ?_)
        rcases h.1 with h1 | h1
        · exact h1 hcn
        · exact h1 (replSp2_take2_nl h2)
      · exact Or.inl hcn

theorem hasNN3_tail {c : Char} {rest : List Char} (h : hasNN3 (c :: rest) = false) :
    hasNN3 rest = false := by
  simp only [hasNN3, Bool.or_eq_false_iff] at h
  exact h.2

theorem hasSS_tail {c : Char} {rest : List Char} (h : hasSS (c :: rest) = false) :
    hasSS rest = false := by
  simp only [hasSS, Bool.or_eq_false_iff] at h
  exact h.2

theorem hasNN3_dropWhile (q : Char → Bool) {l : List Char}
    (h : hasNN3 l = false) : hasNN3 (l.dropWhile q) = false := by
  induction l with
  | nil => exact h
  | cons c rest ih =>
    rw [List.dropWhile_cons]
    by_cases hq : q c = true
    · rw [if_pos hq]
      exact ih (hasNN3_tail h)
    · rw [if_neg hq]
      exact h

theorem hasSS_dropWhile (q : Char → Bool) {l : List Char}
    (h : hasSS l = false) : hasSS (l.dropWhile q) = false := by
  induction l with
  | nil => exact h
  | cons c rest ih =>
    rw [List.dropWhile_cons]
    by_cases hq : q c = true
    · rw [if_pos hq]
      exact ih (hasSS_tail h)
    · rw [if_neg hq]
      exact h

theorem hasNN3_append_left {xs r : List Char} (h : hasNN3 (xs ++ r) = false) :
    hasNN3 xs = false := by
  induction xs with
  | nil => rfl
  | cons c t ih =>
    rw [List.cons_append] at h
    simp only [hasNN3, Bool.or_eq_false_iff, Bool.and_eq_false_iff,
      decide_eq_false_iff_not] at h ⊢
    refine ⟨?_, ih h.2⟩
    rcases h.1 with h1 | h1
    · exact Or.inl h1
    · refine Or.inr (fun ht => ?_)
      have hlen : 2 ≤ t.length := by
        have h2 : (t.take 2).length = 2 := by rw [ht]; rfl
        rw [List.length_take] at h2
        exact min_eq_left_iff.mp h2
      rw [List.take_append_of_le_length hlen] at h1
      exact h1 ht

theorem hasSS_append_left {xs r : List Char} (h : hasSS (xs ++ r) = false) :
    hasSS xs = false := by
  induction xs with
  | nil => rfl
  | cons c t ih =>
    rw [List.cons_append] at h
    simp only [hasSS, Bool.or_eq_false_iff, Bool.and_eq_false_iff,
      decide_eq_false_iff_not] at h ⊢
    refine ⟨?_, ih h.2⟩
    rcases h.1 with h1 | h1
    · exact Or.inl h1
    · refine Or.inr (fun ht => ?_)
      have hlen : 1 ≤ t.length := by
        have h2 : (t.take 1).length = 1 := by rw [ht]; rfl
        rw [List.length_take] at h2
        exact min_eq_left_iff.mp h2
      rw [List.take_append_of_le_length hlen] at h1
      exact h1 ht

/-- The right-trim part of `jsTrimL l` is a prefix of its argument:
`l = jsTrimL-style-result ++ dropped-tail`. -/
theorem rtrim_prefix (l : List Char) :
    ∃ u, l = (l.reverse.dropWhile jsIsWs).reverse ++ u := by
  obtain ⟨v, hv⟩ := @List.dropWhile_suffix Char l.reverse jsIsWs
  refine ⟨v.reverse, ?_⟩
  have := congrArg List.reverse hv
  rw [List.reverse_append, List.reverse_reverse] at this
  exact this.symm

theorem hasNN3_jsTrimL {l : List Char} (h : hasNN3 l = false) :
    hasNN3 (jsTrimL l) = false := by
  have hA : hasNN3 (l.dropWhile jsIsWs) = false := hasNN3_dropWhile jsIsWs h
  obtain ⟨u, hu⟩ := rtrim_prefix (l.dropWhile jsIsWs)
  rw [hu] at hA
  exact hasNN3_append_left hA

theorem hasSS_jsTrimL {l : List Char} (h : hasSS l = false) :
    hasSS (jsTrimL l) = false := by
  have hA : hasSS (l.dropWhile jsIsWs) = false := hasSS_dropWhile jsIsWs h
  obtain ⟨u, hu⟩ := rtrim_prefix (l.dropWhile jsIsWs)
  rw [hu] at hA
  exact hasSS_append_left hA

/-- If dropping the leading satisfying run of `X ++ v` removes nothing,
then dropping it from `X` alone removes nothing either. -/
theorem dropWhile_eq_self_append {q : Char → Bool} {X v : List Char}
    (h : List.dropWhile q (X ++ v) = X ++ v) : List.dropWhile q X = X := by
  cases X with
  | nil => rfl
  | cons c t =>
    rw [List.cons_append, List.dropWhile_cons] at h
    by_cases hq : q c = true
    · rw [if_pos hq] at h
      have hlen := congrArg List.length h
      have hle := (@List.dropWhile_sublist Char (t ++ v) q).length_le
      simp only [List.length_cons, List.length_append] at hlen hle
      omega
    · rw [List.dropWhile_cons, if_neg hq]

theorem jsTrimL_idempotent (l : List Char) : jsTrimL (jsTrimL l) = jsTrimL l := by
  unfold jsTrimL
  set A := l.dropWhile jsIsWs with hA
  set B := A.reverse.dropWhile jsIsWs with hB
  have hAA : A.dropWhile jsIsWs = A := List.dropWhile_idempotent jsIsWs l
  obtain ⟨u, hu⟩ := rtrim_prefix A
  have h2 : List.dropWhile jsIsWs (B.reverse ++ u) = B.reverse ++ u := by
    rw [← hB] at hu
    rw [← hu, hAA]
  have h1 : B.reverse.dropWhile jsIsWs = B.reverse := dropWhile_eq_self_append h2
  rw [h1, List.reverse_reverse, hB, List.dropWhile_idempotent]

/-- The cleaned character list of the chunk-path `cleanContent` is a
fixed point of every pass, provided the input held no carriage
return. -/
theorem ragClean_fixed {l : List Char} (h : '\r' ∉ l) :
    jsTrimL (replSp2 (replTab (replNl3 (replCrlf
        (jsTrimL (replSp2 (replTab (replNl3 (replCrlf l)))))))))
      = jsTrimL (replSp2 (replTab (replNl3 (replCrlf l)))) := by
  rw [replCrlf_eq_self h]
  set X := jsTrimL (replSp2 (replTab (replNl3 l))) with hX
  have hX_cr : '\r' ∉ X := by
    intro hc
    rcases mem_replTab (mem_replSp2 (mem_jsTrimL hc)) with hsp | hmem
    · exact absurd hsp (by decide)
    · exact h (mem_replNl3 hmem)
  have hX_n3 : hasNN3 X = false :=
    hasNN3_jsTrimL (hasNN3_replSp2 (hasNN3_replTab (hasNN3_replNl3 l)))
  have hX_tab : '\t' ∉ X := fun hc =>
    not_tab_mem_replTab (replNl3 l) (mem_replSp2 (mem_jsTrimL hc))
  have hX_ss : hasSS X = false := hasSS_jsTrimL (hasSS_replSp2 _)
  rw [replCrlf_eq_self hX_cr, replNl3_eq_self hX_n3, replTab_eq_self hX_tab,
    replSp2_eq_self hX_ss, hX, jsTrimL_idempotent]

/-- Chunk-path `cleanContent` is idempotent on carriage-return-free
strings. -/
theorem cleanContentRag_idem {s : String} (h : '\r' ∉ s.toList) :
    cleanContentRag (cleanContentRag s) = cleanContentRag s := by
  unfold cleanContentRag
  have htl : (String.mk (jsTrimL (replSp2 (replTab (replNl3 (replCrlf s.toList)))))).toList
      = jsTrimL (replSp2 (replTab (replNl3 (replCrlf s.toList)))) := rfl
  rw [htl, ragClean_fixed h]

/-- All characters coming out of the space-collapsing stage are either
characters of the input or the space substituted for a tab. -/
theorem ascii_pipeline {l : List Char} (h : ∀ c ∈ l, c.toNat ≤ 0x7F) :
    ∀ c ∈ replSp2 (replTab (replNl3 (replCrlf l))), c.toNat ≤ 0x7F := by
  intro c hc
  rcases mem_replTab (mem_replSp2 hc) with rfl | hmem
  · decide
  · exact h c (mem_replCrlf (mem_replNl3 hmem))

theorem stripNonAscii_eq_self {l : List Char} (h : ∀ c ∈ l, c.toNat ≤ 0x7F) :
    stripNonAscii l = l := by
  unfold stripNonAscii
  rw [List.filter_eq_self]
  intro a ha
  exact decide_eq_true (h a ha)

theorem mem_stripNonAscii {c : Char} {l : List Char} (h : c ∈ stripNonAscii l) :
    c ∈ l :=
  (List.mem_filter.mp h).1

/-- On all-ASCII input the document-path `cleanContent` coincides with
the chunk-path one (the strip pass removes nothing). -/
theorem cleanContentDoc_eq_rag {s : String} (h : ∀ c ∈ s.toList, c.toNat ≤ 0x7F) :
    cleanContentDoc s = cleanContentRag s := by
  unfold cleanContentDoc cleanContentRag
  rw [stripNonAscii_eq_self (ascii_pipeline h)]

/-- C10 counterexample.  On the input `"a\r\r\nb"` (all-ASCII) neither
cleaning variant is idempotent: one pass yields `"a\r\nb"`, a second
pass yields `"a\nb"` — the `\r\n`-replacement manufactures a fresh
`\r\n` out of `\r\r\n` that only the next pass removes. -/
theorem c10_clean_not_idempotent :
    cleanContentRag (cleanContentRag crInput) ≠ cleanContentRag crInput
    ∧ cleanContentDoc (cleanContentDoc crInput) ≠ cleanContentDoc crInput := by
  constructor
  · decide
  · decide

/-- C10 amended.  Content cleaning is idempotent on inputs free of
carriage returns (chunk-path variant), respectively free of carriage
returns and all-ASCII (document-path variant); the unrestricted claim
fails (see the counterexample). -/
theorem c10_clean_idempotent_restricted (s : String) :
    ('\r' ∉ s.toList →
      cleanContentRag (cleanContentRag s) = cleanContentRag s)
    ∧ ('\r' ∉ s.toList ∧ (∀ c ∈ s.toList, c.toNat ≤ 0x7F) →
      cleanContentDoc (cleanContentDoc s) = cleanContentDoc s) := by
  constructor
  · exact fun h => cleanContentRag_idem h
  · rintro ⟨hcr, hascii⟩
    rw [cleanContentDoc_eq_rag hascii]
    have hout_ascii : ∀ c ∈ (cleanContentRag s).toList, c.toNat ≤ 0x7F := by
      intro c hc
      unfold cleanContentRag at hc
      exact ascii_pipeline hascii c (mem_jsTrimL hc)
    rw [cleanContentDoc_eq_rag hout_ascii]
    exact cleanContentRag_idem hcr

/-- Witness for C10's amended statement at a concrete carriage-return
free, all-ASCII input. -/
theorem c10_clean_idempotent_restricted_witness :
    cleanContentRag (cleanContentRag "a  b\t\n\n\n\nc") = cleanContentRag "a  b\t\n\n\n\nc"
    ∧ cleanContentDoc (cleanContentDoc "a  b\t\n\n\n\nc") = cleanContentDoc "a  b\t\n\n\n\nc" :=
  ⟨(c10_clean_idempotent_restricted "a  b\t\n\n\n\nc").1 (by decide),
   (c10_clean_idempotent_restricted "a  b\t\n\n\n\nc").2 ⟨by decide, by decide⟩⟩

end LifRag
